import Mathlib

/-!
Shallow embedding of the core of `src/streamlit_app.py` (fantasy-football
auction-draft helper): the cheat-sheet parser (`load_cheat_sheet`), the
budget calculator (`get_remaining_budgets`), the availability filter
(`available_players`), the roster-slot mutations of the roster-manager form,
and the bid-evaluation guard.  Python dicts are modelled as association
lists (insertion-ordered, unique keys in practice), Python strings as Lean
`String`, machine integers as `Int`/`Nat`.
-/

set_option autoImplicit false

/-- Whitespace as recognised by Python `str.strip()`, `str.isspace()` and
the regex class `\s` on `str` patterns: the ASCII controls and space, the
separator controls FS/GS/RS/US, NEL, no-break space, ogham space mark, the
Unicode spaces U+2000–U+200A, line and paragraph separators, narrow
no-break space, medium mathematical space, and ideographic space. -/
def isPySpace (c : Char) : Bool :=
  c = ' ' || c = '\t' || c = '\n' || c = '\r' ||
  c = Char.ofNat 11 || c = Char.ofNat 12 ||
  c = Char.ofNat 28 || c = Char.ofNat 29 || c = Char.ofNat 30 || c = Char.ofNat 31 ||
  c = Char.ofNat 133 || c = Char.ofNat 160 ||
  c = Char.ofNat 5760 ||
  (8192 ≤ c.toNat && c.toNat ≤ 8202) ||
  c = Char.ofNat 8232 || c = Char.ofNat 8233 ||
  c = Char.ofNat 8239 || c = Char.ofNat 8287 || c = Char.ofNat 12288

/-- Python `str.strip()`: drop leading and trailing whitespace. -/
def pyStrip (s : String) : String :=
  String.mk (((s.data.dropWhile isPySpace).reverse.dropWhile isPySpace).reverse)

/-- Value of a string of decimal digits, as Python `int(...)` computes it. -/
def digitsToNat (ds : List Char) : Nat :=
  ds.foldl (fun n c => n * 10 + (c.toNat - 48)) 0

/-- Regex fragment `\$(\d+)` at the head of the input: a literal dollar sign
followed by one or more digits (the cost capture group); trailing input is
ignored because `re.match` is not anchored at the end. -/
def matchDollarCost : List Char → Option Nat
  | '$' :: cs =>
      let ds := cs.takeWhile Char.isDigit
      if ds.isEmpty then none else some (digitsToNat ds)
  | _ => none

/-- Regex fragment `\s+—\s+\$(\d+)` at the head of the input (the part of
the entry pattern after the closing parenthesis of the team).  Both `\s+`
are greedy; since `—` and `$` are not whitespace, maximal munch is exact. -/
def matchCostTail (cs : List Char) : Option Nat :=
  let ws1 := cs.takeWhile isPySpace
  let cs1 := cs.dropWhile isPySpace
  if ws1.isEmpty then none else
  match cs1 with
  | '—' :: cs2 =>
      let ws2 := cs2.takeWhile isPySpace
      let cs3 := cs2.dropWhile isPySpace
      if ws2.isEmpty then none else matchDollarCost cs3
  | _ => none

/-- Backtracking search for the team group `(.+?)\)` followed by
`matchCostTail`: the team is the shortest nonempty prefix (never containing
a newline, which `.` does not match) whose next character is `)` with a
matching tail.  On failure the team is extended by one character, exactly
as the regex engine backtracks a lazy group. -/
def findTeamClose (acc : List Char) : List Char → Option (List Char × Nat)
  | [] => none
  | c :: rest =>
      if c = '\n' then none else
      match rest with
      | ')' :: rest2 =>
          match matchCostTail rest2 with
          | some cost => some (acc ++ [c], cost)
          | none => findTeamClose (acc ++ [c]) rest
      | _ => findTeamClose (acc ++ [c]) rest

/-- Backtracking search for the name group `(.+?)\s+\(` followed by the
team group and cost tail: the name is the shortest nonempty prefix (no
newline) after which greedy whitespace, a literal `(`, and the rest of the
pattern match; on failure the lazy name group is extended by one character. -/
def findNameParen (acc : List Char) : List Char → Option (String × String × Nat)
  | [] => none
  | c :: rest =>
      if c = '\n' then none else
      let acc2 := acc ++ [c]
      let ws := rest.takeWhile isPySpace
      let rest2 := rest.dropWhile isPySpace
      let attempt : Option (String × String × Nat) :=
        if ws.isEmpty then none else
        match rest2 with
        | '(' :: rest3 =>
            match findTeamClose [] rest3 with
            | some (team, cost) => some (String.mk acc2, String.mk team, cost)
            | none => none
        | _ => none
      match attempt with
      | some r => some r
      | none => findNameParen acc2 rest

/-- Backtracking over the greedy `\s+` that separates `\d+\.` from the lazy
name group: the whitespace run is consumed maximally first and given back
one character at a time (never below one character), each time retrying the
name search — the greedy/lazy interaction of `\s+(.+?)`.  `wsRev` holds the
still-consumed whitespace in reverse order. -/
def goWs : List Char → List Char → Option (String × String × Nat)
  | wsRev, input =>
      match findNameParen [] input with
      | some r => some r
      | none =>
          match wsRev with
          | [] => none
          | [_] => none
          | w :: wsRev2 => goWs wsRev2 (w :: input)

/-- `re.match(r"^\d+\.\s+(.+?)\s+\((.+?)\)\s+—\s+\$(\d+)", line)` from
`load_cheat_sheet`, returning the three capture groups (name, team, cost)
when the pattern matches a prefix of `line`. -/
def matchEntry (line : String) : Option (String × String × Nat) :=
  let cs := line.data
  let ds := cs.takeWhile Char.isDigit
  let cs1 := cs.dropWhile Char.isDigit
  if ds.isEmpty then none else
  match cs1 with
  | '.' :: cs2 =>
      let ws := cs2.takeWhile isPySpace
      let cs3 := cs2.dropWhile isPySpace
      if ws.isEmpty then none else goWs ws.reverse cs3
  | _ => none

/-- The four cheat-sheet positions (keys of the dict built on line 19). -/
inductive Position where
  | QB
  | RB
  | WR
  | TE
deriving DecidableEq, Repr

/-- A parsed cheat-sheet entry: `{"name": ..., "team": ..., "cost": ...}`. -/
structure PlayerRecord where
  name : String
  team : String
  cost : Nat
deriving DecidableEq, Repr

/-- The cheat-sheet dict `{"QB": [...], "RB": [...], "WR": [...], "TE": [...]}`. -/
structure CheatSheet where
  QB : List PlayerRecord
  RB : List PlayerRecord
  WR : List PlayerRecord
  TE : List PlayerRecord
deriving DecidableEq, Repr

/-- The initial cheat-sheet dict with four empty position lists. -/
def cheat_sheet_init : CheatSheet := ⟨[], [], [], []⟩

/-- The position list selected by a position key. -/
def atPos (cs : CheatSheet) : Position → List PlayerRecord
  | .QB => cs.QB
  | .RB => cs.RB
  | .WR => cs.WR
  | .TE => cs.TE

/-- Append a record to one position's list, leaving the others unchanged. -/
def appendPos (cs : CheatSheet) (pos : Position) (r : PlayerRecord) : CheatSheet :=
  match pos with
  | .QB => { cs with QB := cs.QB ++ [r] }
  | .RB => { cs with RB := cs.RB ++ [r] }
  | .WR => { cs with WR := cs.WR ++ [r] }
  | .TE => { cs with TE := cs.TE ++ [r] }

/-- Python `line.startswith(pre)`. -/
def pyStartswith (line pre : String) : Bool :=
  pre.data.isPrefixOf line.data

/-- The position-header dispatch of `load_cheat_sheet` (lines 28–35): the
`elif` chain on `line.startswith`, with the inconsistent `"TOP TE"` casing
preserved from the source. -/
def headerPosition (line : String) : Option Position :=
  if pyStartswith line "Top QB" then some .QB
  else if pyStartswith line "Top RB" then some .RB
  else if pyStartswith line "Top WR" then some .WR
  else if pyStartswith line "TOP TE" then some .TE
  else none

/-- One iteration of the `for line in file` loop of `load_cheat_sheet`,
after the `line.strip()`: skip blank lines, switch the current-position
cursor on a header, and under a set cursor append a record for a line
matching the numbered-entry regex (groups stripped, cost as `int`). -/
def parse_step_stripped (st : CheatSheet × Option Position) (line : String) :
    CheatSheet × Option Position :=
  if line = "" then st
  else
    match headerPosition line with
    | some pos => (st.1, some pos)
    | none =>
        match st.2 with
        | none => st
        | some pos =>
            match matchEntry line with
            | none => st
            | some (name, team, cost) =>
                (appendPos st.1 pos { name := pyStrip name, team := pyStrip team, cost := cost },
                 st.2)

/-- One iteration of the `load_cheat_sheet` loop on a raw file line:
`line = line.strip()` then the stripped-line dispatch. -/
def parse_step (st : CheatSheet × Option Position) (rawLine : String) :
    CheatSheet × Option Position :=
  parse_step_stripped st (pyStrip rawLine)

/-- `load_cheat_sheet` (lines 16–47), with the file's contents modelled as
its list of lines: fold the per-line step from the empty sheet with the
current-position cursor initially unset (`None`). -/
def load_cheat_sheet (lines : List String) : CheatSheet :=
  (lines.foldl parse_step (cheat_sheet_init, none)).1

/-- An apostrophe, kept out of string literals. -/
def apostrophe : String := (Char.ofNat 39).toString

/-- The cheat-sheet entry line of the C1 scenario. -/
def chaseLine : String := "1. Ja" ++ apostrophe ++ "Marr Chase (CIN) — $65"

/-- The player record the C1 scenario expects. -/
def chaseRec : PlayerRecord :=
  { name := "Ja" ++ apostrophe ++ "Marr Chase", team := "CIN", cost := 65 }

/-- A roster-slot value as read from `rosters.yml`: either a structured
record (a YAML mapping, possibly missing the `player` or `cost` key or
holding `null` there — `isinstance(info, dict)` holds) or a bare
non-mapping placeholder. -/
inductive SlotVal where
  | record (player : Option String) (cost : Option Int)
  | bare
deriving DecidableEq, Repr

/-- A team's roster: the `slotName → value` mapping, as an insertion-ordered
association list. -/
abbrev TeamRoster : Type := List (String × SlotVal)

/-- The league: the `teamName → TeamRoster` mapping from `rosters.yml`. -/
abbrev League : Type := List (String × TeamRoster)

/-- Python dict indexing `d[k]` (first — in practice unique — binding). -/
def alookup {α : Type} : List (String × α) → String → Option α
  | [], _ => none
  | (k1, v1) :: rest, k => if k1 = k then some v1 else alookup rest k

/-- Python dict assignment `d[k] = v`: overwrite the binding in place when
the key is present, append a fresh binding otherwise. -/
def dictSet {α : Type} : List (String × α) → String → α → List (String × α)
  | [], k, v => [(k, v)]
  | (k1, v1) :: rest, k, v =>
      if k1 = k then (k, v) :: rest else (k1, v1) :: dictSet rest k v

/-- The slot value stored at `(team, slot)`, when both keys exist. -/
def getSlot (data : League) (team slot : String) : Option SlotVal :=
  (alookup data team).bind (fun roster => alookup roster slot)

/-- The inner loop of `get_remaining_budgets` (lines 58–61): fold `spent`
over a roster, adding `info.get("cost") or 0` for every slot whose value is
a dict and skipping non-dict values. -/
def team_spent (roster : TeamRoster) : Int :=
  roster.foldl
    (fun spent sl =>
      match sl.2 with
      | .record _ c => spent + c.getD 0
      | .bare => spent)
    0

/-- `get_remaining_budgets` (lines 55–63): map each team to
`total_budget - spent`, in league order, never clamping. -/
def get_remaining_budgets (data : League) (total_budget : Int) : List (String × Int) :=
  data.map (fun t => (t.1, total_budget - team_spent t.2))

/-- Spec-side spending: the sum of `cost` (defaulted to `0` when missing)
over exactly the occupied slots, i.e. those holding a structured record. -/
def occupied_spent (roster : TeamRoster) : Int :=
  (roster.filterMap
    (fun sl =>
      match sl.2 with
      | .record _ c => some (c.getD 0)
      | .bare => none)).sum

/-- Total cost spent across the whole league: the sum of every team's
spending. -/
def league_spent (data : League) : Int :=
  (data.map (fun t => team_spent t.2)).sum

/-- The drafted-name set of `available_players` (lines 91–96): every
`info["player"]` over all teams and slots whose value is a dict with a
truthy (non-empty, non-null) `player` field.  The Python `set` is modelled
as a list used only through membership. -/
def draftedNames (data : League) : List String :=
  data.flatMap
    (fun t =>
      t.2.filterMap
        (fun sl =>
          match sl.2 with
          | .record (some p) _ => if p = "" then none else some p
          | _ => none))

/-- The cheat-sheet dict in its Python iteration order (`.items()`). -/
def sheetItems (cs : CheatSheet) : List (Position × List PlayerRecord) :=
  [(.QB, cs.QB), (.RB, cs.RB), (.WR, cs.WR), (.TE, cs.TE)]

/-- The filtering loop of `available_players` (lines 98–104) with the
truncation bound a parameter (the source fixes it to `15`): per position,
drop drafted names, skip the position when nothing remains, otherwise keep
the first `topN` survivors. -/
def availAux (drafted : List String) (topN : Nat) :
    List (Position × List PlayerRecord) → List (Position × List PlayerRecord)
  | [] => []
  | (pos, players) :: rest =>
      let remaining := players.filter (fun p => !(decide (p.name ∈ drafted)))
      if remaining.isEmpty then availAux drafted topN rest
      else (pos, remaining.take topN) :: availAux drafted topN rest

/-- The structured content of `available_players`: the per-position
still-available lists, before string formatting. -/
def available_lists (cheat_sheet : CheatSheet) (rosters : League) (topN : Nat) :
    List (Position × List PlayerRecord) :=
  availAux (draftedNames rosters) topN (sheetItems cheat_sheet)

/-- Header text for a position in the available-players digest. -/
def posName : Position → String
  | .QB => "QB"
  | .RB => "RB"
  | .WR => "WR"
  | .TE => "TE"

/-- `available_players` (lines 89–105) with the source's fixed bound 15:
the formatted digest string built from the per-position blocks. -/
def available_players (cheat_sheet : CheatSheet) (rosters : League) : String :=
  String.intercalate "\n"
    ((available_lists cheat_sheet rosters 15).map
      (fun pr =>
        "\nTop " ++ posName pr.1 ++ " still available:\n" ++
          String.intercalate ", " (pr.2.map (fun p => p.name ++ " ($" ++ toString p.cost ++ ")"))))

/-- The `Add/Update Player` branch of the roster-manager form (line 186):
`rosters[team][slot] = {"player": player, "cost": cost}`.  Reading
`rosters[team]` raises `KeyError` when the team is absent, modelled as
`none`. -/
def setSlot (data : League) (team slot player : String) (cost : Int) : Option League :=
  (alookup data team).map
    (fun roster => dictSet data team (dictSet roster slot (SlotVal.record (some player) (some cost))))

/-- The `Remove Player` branch of the roster-manager form (line 189):
`rosters[team][slot] = {"player": "", "cost": 0}`. -/
def clearSlot (data : League) (team slot : String) : Option League :=
  (alookup data team).map
    (fun roster => dictSet data team (dictSet roster slot (SlotVal.record (some "") (some 0))))

/-- The arguments `should_i_bid` is called with (lines 140, 209). -/
structure BidCall where
  background_info : String
  user_team : String
  other_team : String
  player : String
  remaining_budget : Int
deriving DecidableEq, Repr

/-- Outcome of pressing `Evaluate Bid`: either the external advice call is
made with the given arguments, or a local validation warning is shown. -/
inductive BidResult where
  | callModel (call : BidCall)
  | warn (msg : String)
deriving DecidableEq, Repr

/-- The `Evaluate Bid` handler (lines 207–212): call `should_i_bid` when
`player.strip()` is truthy, otherwise show the validation warning and make
no external call. -/
def evaluate_bid_click (background_info user_team other_team player : String)
    (remaining_budget : Int) : BidResult :=
  if pyStrip player ≠ "" then
    .callModel ⟨background_info, user_team, other_team, player, remaining_budget⟩
  else
    .warn "Please enter a player before evaluating the bid."

/-- Frame conditions for a slot write at `(team, slot)`: every other team's
roster binding is unchanged, every other slot of the targeted team is
unchanged, the league's team-name list is unchanged, and every team's
slot-name list is unchanged. -/
def framesMatch (data d2 : League) (team slot : String) : Prop :=
  (∀ t, t ≠ team → alookup d2 t = alookup data t) ∧
  (∀ s, s ≠ slot → getSlot d2 team s = getSlot data team s) ∧
  d2.map Prod.fst = data.map Prod.fst ∧
  (∀ t, (alookup d2 t).map (fun r => r.map Prod.fst) =
        (alookup data t).map (fun r => r.map Prod.fst))

/-- Lookup in a position-keyed association list (the availability result). -/
def posLookup : List (Position × List PlayerRecord) → Position → Option (List PlayerRecord)
  | [], _ => none
  | (q, l) :: rest, pos => if q = pos then some l else posLookup rest pos

/-- The C4 scenario roster: one occupied QB slot costing 40, one bare slot. -/
def rosterA : TeamRoster := [("QB", .record (some "Josh Allen") (some 40)), ("BN", .bare)]

/-- The C4 scenario league: a single team `TeamA`. -/
def lgA : League := [("TeamA", rosterA)]

/-- The C6/C10 witness roster. -/
def rosterB : TeamRoster :=
  [("QB1", .record (some "Jalen Hurts") (some 35)), ("RB1", .record none none), ("BN", .bare)]

/-- The C6/C10 witness league. -/
def lgB : League := [("TeamA", rosterB), ("TeamB", [("QB1", .bare)])]

/-- Witness cheat sheet: five WR records. -/
def csW : CheatSheet :=
  ⟨[], [],
   [⟨"Amon-Ra St. Brown", "DET", 60⟩, ⟨"CeeDee Lamb", "DAL", 58⟩, ⟨"Puka Nacua", "LAR", 55⟩,
    ⟨"Malik Nabers", "NYG", 50⟩, ⟨"Nico Collins", "HOU", 48⟩], []⟩

/-- Witness drafted-name set: two of the five WRs are gone. -/
def draftedW : List String := ["CeeDee Lamb", "Malik Nabers"]

/-! ## Parser step lemmas -/

theorem headerPosition_empty : headerPosition "" = none := by decide

theorem matchEntry_empty : matchEntry "" = none := by decide

theorem parse_step_stripped_empty (st : CheatSheet × Option Position) :
    parse_step_stripped st "" = st := rfl

theorem parse_step_stripped_header (st : CheatSheet × Option Position) (line : String)
    (pos : Position) (h : headerPosition line = some pos) :
    parse_step_stripped st line = (st.1, some pos) := by
  have hne : line ≠ "" := by
    intro he
    rw [he, headerPosition_empty] at h
    exact Option.noConfusion h
  unfold parse_step_stripped
  rw [if_neg hne, h]

theorem parse_step_stripped_skip (st : CheatSheet × Option Position) (line : String)
    (hh : headerPosition line = none) (hm : matchEntry line = none) :
    parse_step_stripped st line = st := by
  by_cases he : line = ""
  · rw [he, parse_step_stripped_empty]
  · obtain ⟨s, c⟩ := st
    unfold parse_step_stripped
    rw [if_neg he, hh]
    cases c with
    | none => rfl
    | some pos => rw [hm]

theorem parse_step_stripped_nocursor (s : CheatSheet) (line : String)
    (hh : headerPosition line = none) :
    parse_step_stripped (s, none) line = (s, none) := by
  by_cases he : line = ""
  · rw [he, parse_step_stripped_empty]
  · unfold parse_step_stripped
    rw [if_neg he, hh]

theorem parse_step_stripped_entry (s : CheatSheet) (pos : Position) (line : String)
    (name team : String) (cost : Nat)
    (hh : headerPosition line = none) (hm : matchEntry line = some (name, team, cost)) :
    parse_step_stripped (s, some pos) line =
      (appendPos s pos { name := pyStrip name, team := pyStrip team, cost := cost }, some pos) := by
  have hne : line ≠ "" := by
    intro he
    rw [he, matchEntry_empty] at hm
    exact Option.noConfusion hm
  unfold parse_step_stripped
  rw [if_neg hne, hh, hm]

theorem parse_step_WR_mono (st : CheatSheet × Option Position) (line : String) :
    ∃ t, ((parse_step st line).1).WR = (st.1).WR ++ t := by
  obtain ⟨s, c⟩ := st
  unfold parse_step parse_step_stripped
  by_cases he : pyStrip line = ""
  · exact ⟨[], by rw [if_pos he]; simp⟩
  · rw [if_neg he]
    cases hh : headerPosition (pyStrip line) with
    | some pos => exact ⟨[], by simp⟩
    | none =>
        cases c with
        | none => exact ⟨[], by simp⟩
        | some pos =>
            cases hm : matchEntry (pyStrip line) with
            | none => exact ⟨[], by simp⟩
            | some r =>
                obtain ⟨name, team, cost⟩ := r
                cases pos with
                | QB => exact ⟨[], by simp [appendPos]⟩
                | RB => exact ⟨[], by simp [appendPos]⟩
                | WR =>
                    exact ⟨[{ name := pyStrip name, team := pyStrip team, cost := cost }],
                      by simp [appendPos]⟩
                | TE => exact ⟨[], by simp [appendPos]⟩

theorem foldl_parse_WR_mono (lines : List String) :
    ∀ st : CheatSheet × Option Position,
      ∃ t, ((List.foldl parse_step st lines).1).WR = (st.1).WR ++ t := by
  induction lines with
  | nil => exact fun st => ⟨[], by simp⟩
  | cons l ls ih =>
      intro st
      obtain ⟨t1, h1⟩ := parse_step_WR_mono st l
      obtain ⟨t2, h2⟩ := ih (parse_step st l)
      exact ⟨t1 ++ t2, by rw [List.foldl_cons, h2, h1, List.append_assoc]⟩

/-! ## Claims about the parser -/

/-- C1: any cheat-sheet text containing the header line `Top WR` followed by
the entry line `1. Ja'Marr Chase (CIN) — $65` parses, under position WR, to
a list containing the PlayerRecord with name `Ja'Marr Chase`, team `CIN`,
and cost `65`. -/
theorem c1_parse_header_entry (pre post : List String) :
    chaseRec ∈ (load_cheat_sheet (pre ++ "Top WR" :: chaseLine :: post)).WR := by
  unfold load_cheat_sheet
  rw [List.foldl_append, List.foldl_cons, List.foldl_cons]
  have hstep1 : ∀ st : CheatSheet × Option Position,
      parse_step st "Top WR" = (st.1, some .WR) := by
    intro st
    unfold parse_step
    exact parse_step_stripped_header st (pyStrip "Top WR") .WR (by decide)
  have hstep2 : ∀ s : CheatSheet,
      parse_step (s, some .WR) chaseLine = (appendPos s .WR chaseRec, some .WR) := by
    intro s
    unfold parse_step
    have hstep := parse_step_stripped_entry s .WR (pyStrip chaseLine)
      ("Ja" ++ apostrophe ++ "Marr Chase") "CIN" 65 (by decide) (by decide)
    rw [hstep]
    have h1 : pyStrip ("Ja" ++ apostrophe ++ "Marr Chase") =
        "Ja" ++ apostrophe ++ "Marr Chase" := by decide
    have h2 : pyStrip "CIN" = "CIN" := by decide
    rw [h1, h2]
    rfl
  rw [hstep1, hstep2]
  obtain ⟨t, ht⟩ := foldl_parse_WR_mono post
    (appendPos (List.foldl parse_step (cheat_sheet_init, none) pre).1 .WR chaseRec, some .WR)
  rw [ht]
  simp [appendPos]

theorem foldl_parse_nocursor (lines : List String)
    (h : ∀ l ∈ lines, headerPosition (pyStrip l) = none) :
    ∀ s : CheatSheet, List.foldl parse_step (s, none) lines = (s, none) := by
  induction lines with
  | nil => intro s; rfl
  | cons l ls ih =>
      intro s
      rw [List.foldl_cons]
      have hstep : parse_step (s, none) l = (s, none) := by
        unfold parse_step
        exact parse_step_stripped_nocursor s _ (h l (List.mem_cons_self _ _))
      rw [hstep]
      exact ih (fun x hx => h x (List.mem_cons_of_mem _ hx)) s

/-- C7: the parser is total and lenient on every input: a blank line leaves
the state unchanged, a line matching neither the header nor the entry
pattern leaves the state unchanged silently, with the cursor unset any
non-header line (entry lines included) produces no record, and a whole text
without a position header (however malformed, numbered entries included)
parses to the empty sheet without error. -/
theorem c7_parser_lenient :
    (∀ (s : CheatSheet) (c : Option Position) (line : String), pyStrip line = "" →
      parse_step (s, c) line = (s, c)) ∧
    (∀ (s : CheatSheet) (c : Option Position) (line : String),
      headerPosition (pyStrip line) = none → matchEntry (pyStrip line) = none →
      parse_step (s, c) line = (s, c)) ∧
    (∀ (s : CheatSheet) (line : String), headerPosition (pyStrip line) = none →
      parse_step (s, none) line = (s, none)) ∧
    (∀ lines : List String, (∀ l ∈ lines, headerPosition (pyStrip l) = none) →
      load_cheat_sheet lines = cheat_sheet_init) := by
  refine ⟨fun s c line h => ?_, fun s c line hh hm => ?_, fun s line hh => ?_,
    fun lines h => ?_⟩
  · unfold parse_step
    rw [h]
    exact parse_step_stripped_empty _
  · unfold parse_step
    exact parse_step_stripped_skip _ _ hh hm
  · unfold parse_step
    exact parse_step_stripped_nocursor s _ hh
  · unfold load_cheat_sheet
    rw [foldl_parse_nocursor lines h cheat_sheet_init]

/-- Witness for C7: a malformed line is skipped silently, and an entry line
with no preceding header yields no record at all. -/
theorem c7_parser_lenient_witness :
    parse_step (cheat_sheet_init, none) "- not a valid entry -" = (cheat_sheet_init, none) ∧
    load_cheat_sheet ["3. Saquon Barkley (PHI) — $52"] = cheat_sheet_init :=
  ⟨c7_parser_lenient.2.1 cheat_sheet_init none "- not a valid entry -" (by decide) (by decide),
   c7_parser_lenient.2.2.2 ["3. Saquon Barkley (PHI) — $52"] (by decide)⟩

/-! ## Budget lemmas -/

theorem team_spent_fold (roster : TeamRoster) :
    ∀ a : Int,
      roster.foldl
        (fun spent sl =>
          match sl.2 with
          | SlotVal.record _ c => spent + c.getD 0
          | SlotVal.bare => spent)
        a = a + occupied_spent roster := by
  induction roster with
  | nil => intro a; simp [occupied_spent]
  | cons x rest ih =>
      intro a
      obtain ⟨k, v⟩ := x
      cases v with
      | record p c =>
          simp only [List.foldl_cons, occupied_spent, List.filterMap_cons, List.sum_cons] at *
          rw [ih]
          ring
      | bare =>
          simp only [List.foldl_cons, occupied_spent, List.filterMap_cons] at *
          rw [ih]

theorem team_spent_eq_occupied (roster : TeamRoster) :
    team_spent roster = occupied_spent roster := by
  have h := team_spent_fold roster 0
  unfold team_spent
  rw [h, Int.zero_add]

theorem alookup_map {α β : Type} (f : α → β) (l : List (String × α)) (k : String) :
    alookup (l.map (fun t => (t.1, f t.2))) k = (alookup l k).map f := by
  induction l with
  | nil => rfl
  | cons x rest ih =>
      obtain ⟨k1, v1⟩ := x
      by_cases h : k1 = k
      · simp [alookup, h]
      · simp [alookup, h, ih]

/-- C4: for every league and total budget, `get_remaining_budgets` maps each
team to `totalBudget` minus the sum of `cost` over that team's occupied
slots (dict-valued slots), a missing or `null` cost contributing `0`, with
the (possibly negative) difference returned unclamped. -/
theorem c4_remaining_budget (data : League) (tb : Int) (team : String)
    (roster : TeamRoster) (h : alookup data team = some roster) :
    alookup (get_remaining_budgets data tb) team = some (tb - occupied_spent roster) := by
  unfold get_remaining_budgets
  rw [alookup_map (fun r => tb - team_spent r) data team, h]
  simp [team_spent_eq_occupied]

/-- Witness for C4: `TeamA` with one occupied slot costing 40 and a total
budget of 260 has 220 remaining. -/
theorem c4_remaining_budget_witness :
    alookup (get_remaining_budgets lgA 260) "TeamA" = some 220 := by
  rw [c4_remaining_budget lgA 260 "TeamA" rosterA rfl]
  decide

/-- C5: summing the remaining budgets over all teams and adding the total
cost spent across the whole league gives the number of teams times the
total budget. -/
theorem c5_budget_conservation (data : League) (tb : Int) :
    ((get_remaining_budgets data tb).map Prod.snd).sum + league_spent data
      = (data.length : Int) * tb := by
  induction data with
  | nil => simp [get_remaining_budgets, league_spent]
  | cons x rest ih =>
      simp only [get_remaining_budgets, league_spent, List.map_cons, List.sum_cons,
        List.length_cons] at *
      push_cast at *
      linarith [ih]

/-! ## Association-list update lemmas -/

theorem alookup_dictSet_self {α : Type} (d : List (String × α)) (k : String) (v : α) :
    alookup (dictSet d k v) k = some v := by
  induction d with
  | nil => simp [dictSet, alookup]
  | cons x rest ih =>
      obtain ⟨k1, v1⟩ := x
      by_cases h : k1 = k
      · simp [dictSet, h, alookup]
      · simp [dictSet, h, alookup, ih]

theorem alookup_dictSet_ne {α : Type} (d : List (String × α)) (k k2 : String) (v : α)
    (h : k2 ≠ k) :
    alookup (dictSet d k v) k2 = alookup d k2 := by
  have h3 : ¬ k = k2 := fun he => h he.symm
  induction d with
  | nil =>
      simp [dictSet, alookup, h3]
  | cons x rest ih =>
      obtain ⟨k1, v1⟩ := x
      by_cases h1 : k1 = k
      · subst h1
        simp [dictSet, alookup, h3]
      · simp only [dictSet, if_neg h1, alookup]
        by_cases h2 : k1 = k2
        · simp [h2]
        · simp [h2, ih]

theorem keys_dictSet_of_mem {α : Type} (d : List (String × α)) (k : String) (v : α)
    (h : k ∈ d.map Prod.fst) :
    (dictSet d k v).map Prod.fst = d.map Prod.fst := by
  induction d with
  | nil => simp at h
  | cons x rest ih =>
      obtain ⟨k1, v1⟩ := x
      by_cases h1 : k1 = k
      · simp [dictSet, h1]
      · have hmem : k ∈ rest.map Prod.fst := by
          simp only [List.map_cons, List.mem_cons] at h
          rcases h with h | h
          · exact absurd h.symm h1
          · exact h
        simp [dictSet, h1, ih hmem]

theorem mem_keys_of_alookup {α : Type} (d : List (String × α)) (k : String) (v : α)
    (h : alookup d k = some v) :
    k ∈ d.map Prod.fst := by
  induction d with
  | nil => simp [alookup] at h
  | cons x rest ih =>
      obtain ⟨k1, v1⟩ := x
      by_cases h1 : k1 = k
      · simp [h1]
      · simp only [alookup, if_neg h1] at h
        simp [ih h]

/-! ## Roster mutation claims -/

/-- C6: clearing a slot and then re-adding the original player and cost
restores the original occupied-slot content exactly. -/
theorem c6_clear_set_roundtrip (data : League) (team slot player : String) (cost : Int)
    (h : getSlot data team slot = some (SlotVal.record (some player) (some cost))) :
    ∃ d1 d2,
      clearSlot data team slot = some d1 ∧
      setSlot d1 team slot player cost = some d2 ∧
      getSlot d2 team slot = some (SlotVal.record (some player) (some cost)) := by
  unfold getSlot at h
  cases hr : alookup data team with
  | none => rw [hr] at h; exact absurd h (by simp)
  | some roster =>
      refine ⟨dictSet data team (dictSet roster slot (SlotVal.record (some "") (some 0))),
        ?_, ?_, ?_, ?_⟩
      · exact dictSet (dictSet data team (dictSet roster slot (SlotVal.record (some "") (some 0))))
          team (dictSet (dictSet roster slot (SlotVal.record (some "") (some 0))) slot
            (SlotVal.record (some player) (some cost)))
      · unfold clearSlot
        rw [hr]
        rfl
      · unfold setSlot
        rw [alookup_dictSet_self]
        rfl
      · unfold getSlot
        rw [alookup_dictSet_self, Option.some_bind, alookup_dictSet_self]

/-- Witness for C6: the round trip on a concrete occupied slot. -/
theorem c6_clear_set_roundtrip_witness :
    ∃ d1 d2,
      clearSlot lgB "TeamA" "QB1" = some d1 ∧
      setSlot d1 "TeamA" "QB1" "Jalen Hurts" 35 = some d2 ∧
      getSlot d2 "TeamA" "QB1" = some (SlotVal.record (some "Jalen Hurts") (some 35)) :=
  c6_clear_set_roundtrip lgB "TeamA" "QB1" "Jalen Hurts" 35 (by decide)

theorem writeSlot_frames (data : League) (team slot : String) (roster : TeamRoster)
    (v : SlotVal) (h1 : alookup data team = some roster) (h2 : slot ∈ roster.map Prod.fst) :
    framesMatch data (dictSet data team (dictSet roster slot v)) team slot := by
  refine ⟨?_, ?_, ?_, ?_⟩
  · intro t ht
    exact alookup_dictSet_ne data team t _ ht
  · intro s hs
    unfold getSlot
    rw [alookup_dictSet_self, h1, Option.some_bind, Option.some_bind,
      alookup_dictSet_ne _ _ _ _ hs]
  · exact keys_dictSet_of_mem data team _ (mem_keys_of_alookup data team roster h1)
  · intro t
    by_cases ht : t = team
    · subst ht
      rw [alookup_dictSet_self, h1]
      simp [keys_dictSet_of_mem roster slot v h2]
    · rw [alookup_dictSet_ne data team t _ ht]

/-- C10: `setSlot` and `clearSlot` modify only the targeted `(team, slot)`
entry — every other team's roster binding, every other slot of the targeted
team, the league's team-name list, and every team's slot-name list are
unchanged (the targeted team and slot being existing keys, as the form's
select boxes guarantee). -/
theorem c10_slot_ops_frame (data : League) (team slot player : String) (cost : Int)
    (roster : TeamRoster) (h1 : alookup data team = some roster)
    (h2 : slot ∈ roster.map Prod.fst) :
    (∃ d1, setSlot data team slot player cost = some d1 ∧ framesMatch data d1 team slot) ∧
    (∃ d2, clearSlot data team slot = some d2 ∧ framesMatch data d2 team slot) := by
  constructor
  · refine ⟨dictSet data team (dictSet roster slot (SlotVal.record (some player) (some cost))),
      ?_, writeSlot_frames data team slot roster _ h1 h2⟩
    unfold setSlot
    rw [h1]
    rfl
  · refine ⟨dictSet data team (dictSet roster slot (SlotVal.record (some "") (some 0))),
      ?_, writeSlot_frames data team slot roster _ h1 h2⟩
    unfold clearSlot
    rw [h1]
    rfl

/-- Witness for C10: both operations on a concrete league and slot. -/
theorem c10_slot_ops_frame_witness :
    (∃ d1, setSlot lgB "TeamA" "RB1" "Bijan Robinson" 45 = some d1 ∧
      framesMatch lgB d1 "TeamA" "RB1") ∧
    (∃ d2, clearSlot lgB "TeamA" "RB1" = some d2 ∧ framesMatch lgB d2 "TeamA" "RB1") :=
  c10_slot_ops_frame lgB "TeamA" "RB1" "Bijan Robinson" 45 rosterB rfl (by decide)

/-! ## Availability lemmas -/

theorem availAux_mem (drafted : List String) (topN : Nat) (pos : Position)
    (l : List PlayerRecord) :
    ∀ items, (pos, l) ∈ availAux drafted topN items →
      ∃ ps, (pos, ps) ∈ items ∧
        ps.filter (fun p => !(decide (p.name ∈ drafted))) ≠ [] ∧
        l = (ps.filter (fun p => !(decide (p.name ∈ drafted)))).take topN := by
  intro items
  induction items with
  | nil => intro h; simp [availAux] at h
  | cons x rest ih =>
      obtain ⟨q, qs⟩ := x
      intro h
      simp only [availAux] at h
      by_cases he : (qs.filter (fun p => !(decide (p.name ∈ drafted)))).isEmpty
      · rw [if_pos he] at h
        obtain ⟨ps, hm, hne, hl⟩ := ih h
        exact ⟨ps, List.mem_cons_of_mem _ hm, hne, hl⟩
      · rw [if_neg he] at h
        rcases List.mem_cons.mp h with h | h
        · injection h with h1 h2
          subst h1
          refine ⟨qs, List.mem_cons_self _ _, ?_, h2⟩
          intro hnil
          rw [hnil] at he
          exact he rfl
        · obtain ⟨ps, hm, hne, hl⟩ := ih h
          exact ⟨ps, List.mem_cons_of_mem _ hm, hne, hl⟩

theorem availAux_keys_sub (drafted : List String) (topN : Nat) (pos : Position) :
    ∀ items, pos ∈ (availAux drafted topN items).map Prod.fst →
      pos ∈ items.map Prod.fst := by
  intro items
  induction items with
  | nil => intro h; simp [availAux] at h
  | cons x rest ih =>
      obtain ⟨q, qs⟩ := x
      intro h
      simp only [availAux] at h
      by_cases he : (qs.filter (fun p => !(decide (p.name ∈ drafted)))).isEmpty
      · rw [if_pos he] at h
        exact List.mem_cons_of_mem _ (ih h)
      · rw [if_neg he] at h
        simp only [List.map_cons, List.mem_cons] at h
        rcases h with h | h
        · simp [h]
        · exact List.mem_cons_of_mem _ (ih h)

theorem posLookup_eq_none (l : List (Position × List PlayerRecord)) (pos : Position)
    (h : pos ∉ l.map Prod.fst) : posLookup l pos = none := by
  induction l with
  | nil => rfl
  | cons x rest ih =>
      obtain ⟨q, qs⟩ := x
      simp only [List.map_cons, List.mem_cons] at h
      push_neg at h
      have hne : ¬ q = pos := fun he => h.1 he.symm
      simp only [posLookup, if_neg hne]
      exact ih h.2

theorem availAux_lookup (drafted : List String) (topN : Nat) (pos : Position) :
    ∀ items, (items.map Prod.fst).Nodup →
      ∀ ps, (pos, ps) ∈ items →
        posLookup (availAux drafted topN items) pos =
          (if (ps.filter (fun p => !(decide (p.name ∈ drafted)))).isEmpty then none
           else some ((ps.filter (fun p => !(decide (p.name ∈ drafted)))).take topN)) := by
  intro items
  induction items with
  | nil => intro _ ps hm; simp at hm
  | cons x rest ih =>
      obtain ⟨q, qs⟩ := x
      intro hnd ps hm
      simp only [List.map_cons, List.nodup_cons] at hnd
      obtain ⟨hq, hnd2⟩ := hnd
      rcases List.mem_cons.mp hm with hh | hh
      · injection hh with h1 h2
        subst h1
        subst h2
        simp only [availAux]
        by_cases he : (ps.filter (fun p => !(decide (p.name ∈ drafted)))).isEmpty
        · rw [if_pos he, if_pos he]
          refine posLookup_eq_none _ _ (fun hc => hq (availAux_keys_sub drafted topN pos rest hc))
        · rw [if_neg he, if_neg he]
          simp [posLookup]
      · have hpos : pos ∈ rest.map Prod.fst :=
          List.mem_map.mpr ⟨(pos, ps), hh, rfl⟩
        have hne : q ≠ pos := fun he => hq (he ▸ hpos)
        simp only [availAux]
        by_cases he : (qs.filter (fun p => !(decide (p.name ∈ drafted)))).isEmpty
        · rw [if_pos he]
          exact ih hnd2 ps hh
        · rw [if_neg he]
          simp only [posLookup, if_neg hne]
          exact ih hnd2 ps hh

theorem sheetItems_keys_nodup (cs : CheatSheet) :
    ((sheetItems cs).map Prod.fst).Nodup := by
  simp [sheetItems]

theorem atPos_mem_sheetItems (cs : CheatSheet) (pos : Position) :
    (pos, atPos cs pos) ∈ sheetItems cs := by
  cases pos <;> simp [sheetItems, atPos]

/-! ## Claims about the availability filter -/

/-- C2: no record of the availability result has a drafted name (exact,
case-sensitive string membership), and every position's result list has
length at most `topN`. -/
theorem c2_available_clean_bounded (cs : CheatSheet) (drafted : List String) (topN : Nat)
    (pos : Position) (l : List PlayerRecord)
    (h : (pos, l) ∈ availAux drafted topN (sheetItems cs)) :
    (∀ p ∈ l, p.name ∉ drafted) ∧ l.length ≤ topN := by
  obtain ⟨ps, _, _, hl⟩ := availAux_mem drafted topN pos l (sheetItems cs) h
  subst hl
  constructor
  · intro p hp
    have hpf := List.mem_of_mem_take hp
    have := List.of_mem_filter hpf
    simpa using this
  · exact List.length_take_le _ _

/-- C3: the filter runs before the truncation — for a position with a
nonempty filtered list, the result is exactly the first `topN` records of
the parser's list with the drafted names removed, in original order. -/
theorem c3_filter_then_truncate (cs : CheatSheet) (drafted : List String) (topN : Nat)
    (pos : Position)
    (h : (atPos cs pos).filter (fun p => !(decide (p.name ∈ drafted))) ≠ []) :
    posLookup (availAux drafted topN (sheetItems cs)) pos =
      some (((atPos cs pos).filter (fun p => !(decide (p.name ∈ drafted)))).take topN) := by
  rw [availAux_lookup drafted topN pos (sheetItems cs) (sheetItems_keys_nodup cs)
    (atPos cs pos) (atPos_mem_sheetItems cs pos)]
  rw [if_neg (by simpa [List.isEmpty_iff] using h)]

/-- C8: a position whose filtered list is empty is omitted from the
availability result entirely. -/
theorem c8_empty_position_omitted (cs : CheatSheet) (drafted : List String) (topN : Nat)
    (pos : Position)
    (h : (atPos cs pos).filter (fun p => !(decide (p.name ∈ drafted))) = []) :
    posLookup (availAux drafted topN (sheetItems cs)) pos = none := by
  rw [availAux_lookup drafted topN pos (sheetItems cs) (sheetItems_keys_nodup cs)
    (atPos cs pos) (atPos_mem_sheetItems cs pos)]
  rw [if_pos (by simpa [List.isEmpty_iff] using h)]

/-- Witness for C2: the concrete WR result of `csW` under `draftedW` with
bound 2 contains no drafted name and respects the bound. -/
theorem c2_available_clean_bounded_witness :
    (∀ p ∈ [(⟨"Amon-Ra St. Brown", "DET", 60⟩ : PlayerRecord), ⟨"Puka Nacua", "LAR", 55⟩],
      p.name ∉ draftedW) ∧
    ([(⟨"Amon-Ra St. Brown", "DET", 60⟩ : PlayerRecord), ⟨"Puka Nacua", "LAR", 55⟩]).length ≤ 2 :=
  c2_available_clean_bounded csW draftedW 2 .WR
    [⟨"Amon-Ra St. Brown", "DET", 60⟩, ⟨"Puka Nacua", "LAR", 55⟩] (by decide)

/-- Witness for C3: with two of five WRs drafted and bound 2, the WR result
is exactly the first two survivors in rank order. -/
theorem c3_filter_then_truncate_witness :
    posLookup (availAux draftedW 2 (sheetItems csW)) .WR =
      some [⟨"Amon-Ra St. Brown", "DET", 60⟩, ⟨"Puka Nacua", "LAR", 55⟩] := by
  rw [c3_filter_then_truncate csW draftedW 2 .WR (by decide)]
  decide

/-- Witness for C8: the QB position of `csW` is empty after filtering and
is omitted from the result. -/
theorem c8_empty_position_omitted_witness :
    posLookup (availAux draftedW 2 (sheetItems csW)) .QB = none :=
  c8_empty_position_omitted csW draftedW 2 .QB (by decide)

/-! ## Whitespace lemmas for the bid guard -/

theorem dropWhile_nil_of_all (p : Char → Bool) :
    ∀ l : List Char, l.all p = true → l.dropWhile p = [] := by
  intro l
  induction l with
  | nil => intro _; rfl
  | cons c cs ih =>
      intro h
      simp only [List.all_cons, Bool.and_eq_true] at h
      simp [List.dropWhile_cons, h.1, ih h.2]

theorem all_of_dropWhile_nil (p : Char → Bool) :
    ∀ l : List Char, l.dropWhile p = [] → l.all p = true := by
  intro l
  induction l with
  | nil => intro _; rfl
  | cons c cs ih =>
      intro h
      by_cases hc : p c
      · rw [List.dropWhile_cons, if_pos hc] at h
        simp [hc, ih h]
      · rw [List.dropWhile_cons, if_neg hc] at h
        exact absurd h (by simp)

theorem all_of_dropWhile_all (p : Char → Bool) :
    ∀ l : List Char, (l.dropWhile p).all p = true → l.all p = true := by
  intro l
  induction l with
  | nil => intro _; rfl
  | cons c cs ih =>
      intro h
      by_cases hc : p c
      · rw [List.dropWhile_cons, if_pos hc] at h
        simp [hc, ih h]
      · rw [List.dropWhile_cons, if_neg hc] at h
        exact h

theorem pyStrip_eq_empty_iff (s : String) :
    pyStrip s = "" ↔ s.data.all isPySpace = true := by
  have hmk : pyStrip s = "" ↔
      ((s.data.dropWhile isPySpace).reverse.dropWhile isPySpace).reverse = [] := by
    unfold pyStrip
    constructor
    · intro h
      exact congrArg String.data h
    · intro h
      rw [h]
  rw [hmk, List.reverse_eq_nil_iff]
  constructor
  · intro h
    have h1 : ((s.data.dropWhile isPySpace).reverse).all isPySpace = true :=
      all_of_dropWhile_nil isPySpace _ h
    rw [List.all_reverse] at h1
    exact all_of_dropWhile_all isPySpace _ h1
  · intro h
    have h1 : s.data.dropWhile isPySpace = [] := dropWhile_nil_of_all isPySpace _ h
    rw [h1]
    rfl

/-- C9: a bid query whose player name is empty or consists only of
whitespace (in the full Unicode repertoire `str.strip()` removes,
no-break spaces included) is rejected locally with the validation warning
and no call to `should_i_bid` is made; a non-blank player name always
reaches `should_i_bid` with the handler's arguments. -/
theorem c9_blank_player_rejected (background_info user_team other_team player : String)
    (remaining_budget : Int) :
    (player.data.all isPySpace = true →
      evaluate_bid_click background_info user_team other_team player remaining_budget =
        .warn "Please enter a player before evaluating the bid.") ∧
    (player.data.all isPySpace = false →
      evaluate_bid_click background_info user_team other_team player remaining_budget =
        .callModel ⟨background_info, user_team, other_team, player, remaining_budget⟩) := by
  constructor
  · intro h
    have hs : pyStrip player = "" := (pyStrip_eq_empty_iff player).mpr h
    simp [evaluate_bid_click, hs]
  · intro h
    have hs : pyStrip player ≠ "" := by
      intro he
      rw [(pyStrip_eq_empty_iff player).mp he] at h
      exact Bool.noConfusion h
    simp [evaluate_bid_click, hs]

/-- Witness for C9: an ASCII-space-only name and a no-break-space-only
name both warn locally, a real name calls out. -/
theorem c9_blank_player_rejected_witness :
    evaluate_bid_click "ctx" "TeamA" "TeamB" "   " 120 =
      .warn "Please enter a player before evaluating the bid." ∧
    evaluate_bid_click "ctx" "TeamA" "TeamB" (Char.ofNat 160).toString 120 =
      .warn "Please enter a player before evaluating the bid." ∧
    evaluate_bid_click "ctx" "TeamA" "TeamB" "Joe Burrow" 120 =
      .callModel ⟨"ctx", "TeamA", "TeamB", "Joe Burrow", 120⟩ :=
  ⟨(c9_blank_player_rejected "ctx" "TeamA" "TeamB" "   " 120).1 (by decide),
   (c9_blank_player_rejected "ctx" "TeamA" "TeamB" (Char.ofNat 160).toString 120).1 (by decide),
   (c9_blank_player_rejected "ctx" "TeamA" "TeamB" "Joe Burrow" 120).2 (by decide)⟩
